import Mathlib

/-!
Verification of the heap manager in `src/malloc.c` (a `malloc`/`free`
replacement over a single sbrk-grown arena with four compile-time fit
policies and exit-time statistics).

The C program is shallowly embedded as follows.

* A block header (`struct block`) becomes the structure `Block`; machine
  pointers become abstract addresses (`Addr`).  An address is either an
  arena address (memory obtained from `sbrk`, identified by the value of
  the break counter at the time it was created) or a stack address
  (storage of a call-local variable such as the `struct block temp` in
  `malloc`'s split branch).  Keeping the two address kinds apart lets the
  model express where a block's storage lives.
* Memory is an association list `Heap` from addresses to block headers;
  `lookupB`/`updateB` model pointer reads and writes.  All addresses we
  ever insert are distinct, so the first-match convention of an
  association list coincides with memory.
* The global variables of the C file (`FreeList`, `Final`, the nine
  statistics counters, the `atexit` registration flag) together with the
  OS break position, a counter of stack slots, and the indeterminate
  contents of fresh stack memory (`junk`) form the state `HState`.
* `size_t` arithmetic is Nat arithmetic reduced mod 2^64 where the C
  computation can wrap (the `ALIGN4` macro); the statistics counters are
  kept as Nat, matching their intended (and spec-described) role as
  monotone counters.
* `assert` failures and undefined pointer dereferences abort the
  process; both are modelled as `Except.error ()`, which carries no
  state (nothing is committed once the process dies).
* The chain walks of the C code (`findFreeBlock`'s scans and the
  backward-coalesce scan in `free`) follow `next` pointers; in the model
  they take explicit fuel.  The fuel passed by the callers is
  `heap.length + 1`, which bounds every walk over an acyclic chain of
  heap-resident blocks, so on every state the C program itself
  terminates on, the model computes the same result.
-/

/-- An abstract machine address: either arena memory handed out by `sbrk`
(the `n`-th block ever created), or the storage of a call-local C variable
(the `n`-th stack slot used). -/
inductive Addr where
  | arena : Nat → Addr
  | stack : Nat → Addr
deriving DecidableEq, Repr

/-- Does this address point into the sbrk-grown arena? -/
def Addr.isArena : Addr → Bool
  | .arena _ => true
  | .stack _ => false

/-- `struct block`: the per-block header of `src/malloc.c`. -/
structure Block where
  size : Nat
  next : Option Addr
  free : Bool
  dirty : Bool
deriving DecidableEq, Repr

/-- Memory: an association list from addresses to block headers. -/
abbrev Heap := List (Addr × Block)

/-- Read the block header stored at address `a` (a pointer dereference). -/
def lookupB : Heap → Addr → Option Block
  | [], _ => none
  | (a', b) :: t, a => if a' = a then some b else lookupB t a

/-- Overwrite the block header stored at address `a` (a store through a
pointer).  Leaves the heap unchanged if `a` is absent. -/
def updateB : Heap → Addr → Block → Heap
  | [], _, _ => []
  | (a', b') :: t, a, b => if a' = a then (a, b) :: t else (a', b') :: updateB t a b

/-- 2^64, the modulus of `size_t` arithmetic. -/
def U64 : Nat := 18446744073709551616

/-- The `ALIGN4` macro: `(((s-1) >> 2) << 2) + 4` on `size_t`, i.e.
`((s-1)/4)*4 + 4` with wrap-around mod 2^64 (so `ALIGN4(0) = 0`). -/
def align4 (s : Nat) : Nat := (((s + (U64 - 1)) % U64) / 4 * 4 + 4) % U64

/-- The four compile-time fit policies (`FIT`, `BEST`, `WORST`, `NEXT`). -/
inductive Fit where
  | first | best | worst | next
deriving DecidableEq, Repr

/-- All process-wide state of `src/malloc.c`: the heap contents, the
globals `FreeList` and `Final`, the `atexit` flag, the nine statistics
counters, plus the OS break position (`brk`), a counter naming fresh
stack slots, and `junk`, the indeterminate contents of fresh stack
memory (used for the fields of `struct block temp` that the split branch
leaves uninitialized). -/
structure HState where
  heap : Heap := []
  freeList : Option Addr := none
  final : Option Addr := none
  brk : Nat := 0
  stackCtr : Nat := 0
  junk : Block := ⟨0, none, false, false⟩
  atexitRegistered : Bool := false
  num_mallocs : Nat := 0
  num_frees : Nat := 0
  num_reuses : Nat := 0
  num_grows : Nat := 0
  num_splits : Nat := 0
  num_coalesces : Nat := 0
  num_blocks : Nat := 0
  num_requested : Nat := 0
  max_heap : Nat := 0
deriving DecidableEq, Repr

/-- The first-fit scan loop of `findFreeBlock` (also the loop body of the
next-fit branch, which is textually the same loop started at `Final`):
`while (curr && !(curr->free && curr->size >= size)) { *last = curr;
curr = curr->next; num_blocks++; }`.  Returns `(curr, *last, num_blocks)`. -/
def firstScan (h : Heap) (size : Nat) :
    Nat → Option Addr → Option Addr → Nat → Option Addr × Option Addr × Nat
  | 0, _, last, sc => (none, last, sc)
  | _ + 1, none, last, sc => (none, last, sc)
  | fuel + 1, some a, last, sc =>
    match lookupB h a with
    | none => (none, last, sc)
    | some b =>
      if b.free ∧ size ≤ b.size then (some a, last, sc)
      else firstScan h size fuel b.next (some a) (sc + 1)

/-- Did the best-fit candidate test `(best == NULL || curr->size < best->size)`
succeed? -/
def bestBetter (best : Option (Addr × Block)) (b : Block) : Bool :=
  match best with
  | none => true
  | some p => b.size < p.2.size

/-- The best-fit scan loop of `findFreeBlock`: tracks the smallest free
block with `size >= S`, breaking as soon as `best->size == size`.
Returns `(curr, num_blocks)` (`curr = best` after the loop); the best-fit
branch never writes `*last`. -/
def bestScan (h : Heap) (size : Nat) :
    Nat → Option Addr → Option (Addr × Block) → Nat → Option Addr × Nat
  | 0, _, best, sc => (best.map Prod.fst, sc)
  | _ + 1, none, best, sc => (best.map Prod.fst, sc)
  | fuel + 1, some a, best, sc =>
    match lookupB h a with
    | none => (best.map Prod.fst, sc)
    | some b =>
      if b.free ∧ size ≤ b.size ∧ bestBetter best b then
        if b.size = size then (some a, sc + 1)
        else bestScan h size fuel b.next (some (a, b)) (sc + 1)
      else bestScan h size fuel b.next best (sc + 1)

/-- The worst-fit scan loop of `findFreeBlock`.  The C condition is
`curr->free && curr->size > size && abs(curr->size - size) > max`; since
`curr->size > size` holds at that point, `abs(curr->size - size)` is the
surplus `curr->size - size`.  On acceptance the C code assigns
`max = curr->size` — the raw size, not the surplus; the model reproduces
that assignment.  `*last = curr` runs on every iteration.  Returns
`(worst, *last, num_blocks)`. -/
def worstScan (h : Heap) (size : Nat) :
    Nat → Option Addr → Option Addr → Option Addr → Nat → Nat →
      Option Addr × Option Addr × Nat
  | 0, _, last, worst, _, sc => (worst, last, sc)
  | _ + 1, none, last, worst, _, sc => (worst, last, sc)
  | fuel + 1, some a, last, worst, max, sc =>
    match lookupB h a with
    | none => (worst, last, sc)
    | some b =>
      if b.free ∧ size < b.size ∧ max < b.size - size then
        worstScan h size fuel b.next (some a) (some a) b.size (sc + 1)
      else worstScan h size fuel b.next (some a) worst max (sc + 1)

/-- `findFreeBlock(&last, size)` with `last` initialized to `FreeList`
by `malloc`.  `num_blocks` is reset to 0 on entry and counts this scan
only.  Returns `(found, last, num_blocks, Final')` where `Final'` is the
next-fit cursor after the call (unchanged except under the next-fit
policy, which sets `Final = curr` after the loop so a miss leaves it
null). -/
def findFreeBlock (fit : Fit) (s : HState) (size : Nat) :
    Option Addr × Option Addr × Nat × Option Addr :=
  let fuel := s.heap.length + 1
  match fit with
  | .first =>
    match firstScan s.heap size fuel s.freeList s.freeList 0 with
    | (f, l, n) => (f, l, n, s.final)
  | .best =>
    match bestScan s.heap size fuel s.freeList none 0 with
    | (f, n) => (f, s.freeList, n, s.final)
  | .worst =>
    match worstScan s.heap size fuel s.freeList s.freeList none 0 0 with
    | (f, l, n) => (f, l, n, s.final)
  | .next =>
    let start := match s.final with
      | none => s.freeList
      | some c => some c
    match firstScan s.heap size fuel start s.freeList 0 with
    | (f, l, n) => (f, l, n, f)

/-- `if (FreeList == NULL) FreeList = curr;` in `growHeap`. -/
def setFreeListIfNull (a : Addr) (s : HState) : HState :=
  if s.freeList = none then { s with freeList := some a } else s

/-- `if (last) last->next = curr;` in `growHeap`. -/
def attachLast (last : Option Addr) (a : Addr) (s : HState) : HState :=
  match last with
  | some l =>
    match lookupB s.heap l with
    | some lb => { s with heap := updateB s.heap l { lb with next := some a } }
    | none => s
  | none => s

/-- `growHeap(last, size)`.  `sbrk(0)` returns the current break and
cannot fail; `sbrk(sizeof(struct block) + size)` returns the previous
break on success and `(void*)-1` (modelled as `none`) when the OS denies
the extension (`osOk = false`).  The C code then runs
`assert(curr == prev)` — modelled as `.error ()` on mismatch — and only
afterwards tests `curr == (void*)-1`, a test of the `sbrk(0)` result
that can never be true. -/
def growHeapFn (osOk : Bool) (last : Option Addr) (size : Nat) (s : HState) :
    Except Unit (Option Addr × HState) :=
  let curr : Option Addr := some (Addr.arena s.brk)
  let prev : Option Addr := if osOk then some (Addr.arena s.brk) else none
  let a := Addr.arena s.brk
  let s := if osOk then { s with brk := s.brk + 1 } else s
  if curr ≠ prev then .error ()
  else if curr = none then .ok (none, s)
  else
    let s := setFreeListIfNull a s
    let s := attachLast last a s
    let newBlk : Block := { size := size, next := none, free := false, dirty := false }
    .ok (some a,
      { s with heap := (a, newBlk) :: s.heap,
               num_grows := s.num_grows + 1,
               max_heap := Nat.max s.max_heap size })

/-- The split branch of `malloc`: `if (next && size < next->size)` carve
`struct block temp` — a call-local variable, modelled as a fresh stack
address — set its fields (`temp.next` and `temp.dirty` stay uninitialized
stack contents when the C code does not assign them), splice it in with
`next->next = &temp`, and shrink the found block. -/
def splitPhase (found : Option Addr) (size : Nat) (s : HState) :
    Option Addr × HState :=
  match found with
  | none => (none, s)
  | some a =>
    match lookupB s.heap a with
    | none => (some a, s)
    | some b =>
      if size < b.size then
        let tempAddr := Addr.stack s.stackCtr
        let temp : Block :=
          { size := b.size - size,
            free := true,
            next := match b.next with
              | some nx => some nx
              | none => s.junk.next,
            dirty := s.junk.dirty }
        let h := (tempAddr, temp) :: s.heap
        let h := updateB h a { b with next := some tempAddr, size := size }
        (some a,
          { s with heap := h, stackCtr := s.stackCtr + 1,
                   num_splits := s.num_splits + 1 })
      else (some a, s)

/-- The tail of `malloc` once a block has been chosen: count a reuse if
the block was dirty, mark it busy and dirty, bump `num_mallocs` and
`num_requested`, and return `BLOCK_DATA(next)` (data pointers and their
headers are in bijection, so the model returns the block's address). -/
def finishAlloc (a : Addr) (size : Nat) (s : HState) : Option Addr × HState :=
  match lookupB s.heap a with
  | none => (none, s)
  | some b =>
    let s := if b.dirty then { s with num_reuses := s.num_reuses + 1 } else s
    (some a,
      { s with heap := updateB s.heap a { b with free := false, dirty := true },
               num_mallocs := s.num_mallocs + 1,
               num_requested := s.num_requested + size })

/-- The body of `malloc` after the zero-size test: search for a free
block (committing `num_blocks` and the next-fit cursor), split an
oversized find, grow the heap on a miss (`if (next == NULL) return
NULL;` when growth yields nothing), and finish the allocation.  `size`
is already aligned. -/
def mallocCore (fit : Fit) (osOk : Bool) (size : Nat) (s1 : HState) :
    Except Unit (Option Addr × HState) :=
  match findFreeBlock fit s1 size with
  | (found, last, scanned, final') =>
    let s2 := { s1 with num_blocks := scanned, final := final' }
    match splitPhase found size s2 with
    | (next, s3) =>
      match next with
      | some a => .ok (finishAlloc a size s3)
      | none =>
        match growHeapFn osOk last size s3 with
        | .error e => .error e
        | .ok (none, s4) => .ok (none, s4)
        | .ok (some a, s4) => .ok (finishAlloc a size s4)

/-- `malloc(size)`: register the exit-time report once, align the size,
return null on zero size, then run the allocation body. -/
def mallocFn (fit : Fit) (osOk : Bool) (size0 : Nat) (s0 : HState) :
    Except Unit (Option Addr × HState) :=
  let s1 := if s0.atexitRegistered then s0 else { s0 with atexitRegistered := true }
  let size := align4 size0
  if size = 0 then .ok (none, s1)
  else mallocCore fit osOk size s1

/-- The backward-coalesce loop of `free`: walk the chain from `FreeList`
looking for `tempBlock->next == curr && tempBlock->free`.  On a match the
predecessor absorbs the current block's size and then the C code runs
`if (curr->next == NULL) previous->next == NULL; else previous->next =
curr->next;` — in the tail case the `==` is a comparison, not an
assignment, so the predecessor's `next` is left unchanged; the model
reproduces exactly that.  The loop then advances through the (possibly
updated) `next` field.  Returns the heap and `num_coalesces`. -/
def backwardPass (c : Addr) (h : Heap) (nc : Nat) :
    Nat → Option Addr → Heap × Nat
  | 0, _ => (h, nc)
  | _ + 1, none => (h, nc)
  | fuel + 1, some t =>
    match lookupB h t with
    | none => (h, nc)
    | some tb =>
      if tb.next = some c ∧ tb.free then
        match lookupB h c with
        | none => (h, nc)
        | some cb =>
          let tb' : Block :=
            { tb with
              size := tb.size + cb.size,
              next := match cb.next with
                | none => tb.next
                | some nx => some nx }
          backwardPass c (updateB h t tb') (nc + 1) fuel tb'.next
      else backwardPass c h nc fuel tb.next

/-- The forward-coalesce step of `free`: if the successor block exists
and is free, absorb its size into the current block, count a coalesce,
and re-point the current block's `next` past it (`curr->next = NULL`
when the successor was the tail, else `curr->next = rightBlock->next`). -/
def forwardCoalesce (a : Addr) (curr : Block) (s : HState) : HState :=
  match curr.next with
  | some r =>
    match lookupB s.heap r with
    | some rb =>
      if rb.free then
        let curr' := { curr with size := curr.size + rb.size, next := rb.next }
        { s with heap := updateB s.heap a curr',
                 num_coalesces := s.num_coalesces + 1 }
      else s
    | none => s
  | none => s

/-- `free(ptr)`: null is a no-op; otherwise recover the header, run
`assert(curr->free == 0)` (an already-free block aborts), mark the block
free, coalesce forward with a free successor, then run the backward
scan.  A pointer that addresses no block is an invalid dereference,
modelled as an abort. -/
def freeFn (ptr : Option Addr) (s : HState) : Except Unit HState :=
  match ptr with
  | none => .ok s
  | some a =>
    match lookupB s.heap a with
    | none => .error ()
    | some curr0 =>
      if curr0.free then .error ()
      else
        let curr := { curr0 with free := true }
        let s := { s with heap := updateB s.heap a curr,
                          num_frees := s.num_frees + 1 }
        let s := forwardCoalesce a curr s
        match backwardPass a s.heap s.num_coalesces (s.heap.length + 1) s.freeList with
        | (h, nc) => .ok { s with heap := h, num_coalesces := nc }

/-- Follow `next` pointers `n` steps from a starting pointer. -/
def stepN (h : Heap) : Nat → Option Addr → Option Addr
  | 0, s => s
  | n + 1, s =>
    match s with
    | none => none
    | some a =>
      match lookupB h a with
      | none => none
      | some b => stepN h n b.next

/-- Extract the chain starting at a pointer as a list of (address, block)
pairs; `none` if the walk does not reach null within the fuel (a cycle)
or dereferences a dangling pointer. -/
def chainTo (h : Heap) : Nat → Option Addr → Option (List (Addr × Block))
  | _, none => some []
  | 0, some _ => none
  | fuel + 1, some a =>
    match lookupB h a with
    | none => none
    | some b =>
      match chainTo h fuel b.next with
      | some l => some ((a, b) :: l)
      | none => none

/-- Modelled from the spec's selection rule for BestFit, for comparison
with the code: scan the whole chain tracking the smallest free block
with `size ≥ S`, ties keeping the earliest found. -/
def specBestFit (size : Nat) : List (Addr × Block) → Option (Addr × Block)
  | [] => none
  | (a, b) :: t =>
    let rest := specBestFit size t
    if b.free ∧ size ≤ b.size then
      match rest with
      | some p => if p.2.size < b.size then some p else some (a, b)
      | none => some (a, b)
    else rest

/-- Modelled from the spec's selection rule for WorstFit, for comparison
with the code: select the free block of greatest surplus `size − S`
among candidates with `size > S` (ties keeping the earliest found). -/
def specWorstFit (size : Nat) : List (Addr × Block) → Option (Addr × Block)
  | [] => none
  | (a, b) :: t =>
    let rest := specWorstFit size t
    if b.free ∧ size < b.size then
      match rest with
      | some p => if b.size - size < p.2.size - size then some p else some (a, b)
      | none => some (a, b)
    else rest

/-- A two-block chain whose free tail block is freed while its free
predecessor exists: predecessor at arena address 0 (free, size 8),
current block at arena address 1 (busy, size 8, the chain tail). -/
def c1s : HState :=
  { heap := [(Addr.arena 0, ⟨8, some (Addr.arena 1), true, true⟩),
             (Addr.arena 1, ⟨8, none, false, true⟩)],
    freeList := some (Addr.arena 0), brk := 2 }

/-- The state `free(arena 1)` produces from `c1s`: the predecessor has
absorbed the size (8 + 8 = 16) and counted a coalesce, but its `next`
still points at the supposedly merged-away block. -/
def c1s' : HState :=
  { heap := [(Addr.arena 0, ⟨16, some (Addr.arena 1), true, true⟩),
             (Addr.arena 1, ⟨8, none, true, true⟩)],
    freeList := some (Addr.arena 0), brk := 2,
    num_frees := 1, num_coalesces := 1 }

/-- C1: the claim says backward coalescing re-points the free
predecessor's `next` to the freed block's `next` — null when the freed
block is the tail — unlinking it.  The code instead executes
`previous->next == NULL;`, a comparison, in the tail case: freeing the
tail block of `c1s` adds its size into the free predecessor and counts a
coalesce, but the predecessor's `next` still points at the current
block, which therefore remains linked in the chain. -/
theorem free_backward_tail_no_relink :
    freeFn (some (Addr.arena 1)) c1s = .ok c1s' ∧
    lookupB c1s'.heap (Addr.arena 0) =
      some { size := 16, next := some (Addr.arena 1), free := true, dirty := true } ∧
    c1s'.num_coalesces = 1 := by
  refine ⟨rfl, rfl, rfl⟩

/-- A single-block chain with one free block of size 16, large enough
that a request of 4 triggers the split branch. -/
def c2s : HState :=
  { heap := [(Addr.arena 0, ⟨16, none, true, true⟩)],
    freeList := some (Addr.arena 0), brk := 1 }

/-- C2: the claim says the split remainder is carved from the trailing
portion of the same arena-owned memory.  The code instead declares
`struct block temp;` — call-stack storage — and splices its address into
the chain: whatever the indeterminate initial stack contents `junk` are,
allocating 4 bytes from the free 16-byte block leaves the found block's
`next` pointing at a stack address, not arena memory (and the remainder's
`next` and `dirty` fields are whatever the stack held). -/
theorem malloc_split_stack_remainder (junk : Block) :
    mallocFn .first true 4 { c2s with junk := junk } =
      .ok (some (Addr.arena 0),
        { heap := [(Addr.stack 0,
                     { size := 12, next := junk.next, free := true, dirty := junk.dirty }),
                   (Addr.arena 0,
                     { size := 4, next := some (Addr.stack 0), free := false, dirty := true })],
          freeList := some (Addr.arena 0), final := none, brk := 1, stackCtr := 1,
          junk := junk, atexitRegistered := true,
          num_mallocs := 1, num_frees := 0, num_reuses := 1, num_grows := 0,
          num_splits := 1, num_coalesces := 0, num_blocks := 0,
          num_requested := 4, max_heap := 0 }) ∧
    (Addr.stack 0).isArena = false := by
  refine ⟨rfl, rfl⟩

/-- C3: the claim says that on OS denial `growHeap` returns null with no
partial state committed, after verifying the returned start address
against the recorded break.  In the code the failure test
`curr == (void*)-1` examines the result of `sbrk(0)` — which never
fails — so it can never trigger; on denial the extension `sbrk` returns
`(void*)-1`, `assert(curr == prev)` fails, and the process aborts
instead of returning null.  Consequently `growHeap` aborts on every
denied request and never returns its null failure sentinel at all. -/
theorem growHeap_denial_aborts :
    (∀ last size s, growHeapFn false last size s = .error ()) ∧
    (∀ osOk last size s s', growHeapFn osOk last size s ≠ .ok (none, s')) := by
  constructor
  · intro last size s
    simp [growHeapFn]
  · intro osOk last size s s'
    cases osOk with
    | false => simp [growHeapFn]
    | true =>
      simp only [growHeapFn]
      split
      · simp
      · split
        · simp_all
        · simp

/-- A chain of two free blocks of sizes 12 and 16 in address order; for
a request of 4 their surpluses are 8 and 12. -/
def c4s : HState :=
  { heap := [(Addr.arena 0, ⟨12, some (Addr.arena 1), true, true⟩),
             (Addr.arena 1, ⟨16, none, true, true⟩)],
    freeList := some (Addr.arena 0), brk := 2 }

/-- C4: the claim says the WorstFit scan tracks the surplus `size − S`
and selects the candidate of greatest surplus.  The code compares the
surplus against `max` but then assigns `max = curr->size` — the raw
size.  Against free blocks of sizes 12 and 16 with request 4, accepting
the size-12 block sets `max = 12`, the size-16 block's surplus 12 fails
`12 > 12`, and the size-12 block is selected even though the size-16
block has the strictly greater surplus (as the spec-modelled rule
`specWorstFit` confirms). -/
theorem worstFit_raw_size_tracking :
    (findFreeBlock .worst c4s 4).1 = some (Addr.arena 0) ∧
    (chainTo c4s.heap 3 c4s.freeList).map (fun l => (specWorstFit 4 l).map Prod.fst) =
      some (some (Addr.arena 1)) ∧
    12 - 4 < 16 - 4 := by decide

/-- A single-block chain whose only block is busy, with the next-fit
cursor unset. -/
def c5s : HState :=
  { heap := [(Addr.arena 0, ⟨8, none, false, true⟩)],
    freeList := some (Addr.arena 0), brk := 1 }

/-- `c5s` after its block is freed, with the cursor exactly as the
missed search left it (null). -/
def c5s2 : HState :=
  { c5s with heap := [(Addr.arena 0, ⟨8, none, true, true⟩)], final := none }

/-- C5 counterexample: the claim says the cursor is left where the
previous search stopped and that blocks before an advanced cursor are
never selected by subsequent searches even if they have become free.  On
`c5s` a next-fit search misses and advances the cursor past the only
block, leaving `Final = NULL`; after that block becomes free (`c5s2`),
the very next search selects it — because a null cursor is
indistinguishable from the never-used cursor and the search restarts at
the chain head. -/
theorem nextFit_cursor_reset_counterexample :
    findFreeBlock .next c5s 4 = (none, some (Addr.arena 0), 1, none) ∧
    findFreeBlock .next c5s2 4 =
      (some (Addr.arena 0), some (Addr.arena 0), 0, some (Addr.arena 0)) := by
  decide

/-- The empty initial state of the process. -/
def st0 : HState := {}

/-- State after `malloc(4)` on the empty state (first-fit build, OS
grants growth): one busy block, grown from the OS. -/
def st1 : HState :=
  match mallocFn .first true 4 st0 with
  | .ok (_, s) => s
  | .error _ => st0

/-- State after a second `malloc(4)`: the scan walks the one busy block
(`num_blocks = 1`) and grows again. -/
def st2 : HState :=
  match mallocFn .first true 4 st1 with
  | .ok (_, s) => s
  | .error _ => st1

/-- State after freeing the first block. -/
def st3 : HState :=
  match freeFn (some (Addr.arena 0)) st2 with
  | .ok s => s
  | .error _ => st2

/-- State after a third `malloc(4)`: the scan finds the freed first
block immediately, so `num_blocks` is reset to 0. -/
def st4 : HState :=
  match mallocFn .first true 4 st3 with
  | .ok (_, s) => s
  | .error _ => st3

/-- C9 counterexample: the claim says all nine counters are
monotonically non-decreasing over every sequence of allocate and
deallocate calls.  `num_blocks` is reset to 0 at the start of every
search and counts only that search: after `malloc(4)`, `malloc(4)`,
`free(first)` it stands at 1, and the next `malloc(4)` (which finds the
freed block immediately) lowers it to 0. -/
theorem num_blocks_decreases_counterexample :
    mallocFn .first true 4 st3 = .ok (some (Addr.arena 0), st4) ∧
    st4.num_blocks < st3.num_blocks := by
  refine ⟨rfl, by decide⟩

/-- C6: `allocate(0)` returns null immediately in every allocator state
(the `ALIGN4` macro wraps 0 around to 0 on `size_t`, so the zero-size
test fires) and mutates neither the block chain nor any of the nine
statistics counters; the only state it can touch is the idempotent
`atexit` registration flag. -/
theorem malloc_zero_no_side_effects (fit : Fit) (osOk : Bool) (s : HState) :
    ∃ s', mallocFn fit osOk 0 s = .ok (none, s') ∧
      s'.heap = s.heap ∧ s'.freeList = s.freeList ∧ s'.final = s.final ∧
      s'.num_mallocs = s.num_mallocs ∧ s'.num_frees = s.num_frees ∧
      s'.num_reuses = s.num_reuses ∧ s'.num_grows = s.num_grows ∧
      s'.num_splits = s.num_splits ∧ s'.num_coalesces = s.num_coalesces ∧
      s'.num_blocks = s.num_blocks ∧ s'.num_requested = s.num_requested ∧
      s'.max_heap = s.max_heap := by
  have h0 : align4 0 = 0 := by decide
  by_cases hr : s.atexitRegistered
  · exact ⟨s, by simp [mallocFn, h0, hr], rfl, rfl, rfl, rfl, rfl, rfl, rfl, rfl,
      rfl, rfl, rfl, rfl⟩
  · exact ⟨{ s with atexitRegistered := true }, by simp [mallocFn, h0, hr],
      rfl, rfl, rfl, rfl, rfl, rfl, rfl, rfl, rfl, rfl, rfl, rfl⟩

/-- C10: `free` runs `assert(curr->free == 0)` on the recovered block
before marking it free, so deallocating a block that is already free —
in particular a double free — aborts at the assertion; no state is
committed, so the block is not re-marked and the free counter is not
incremented a second time. -/
theorem free_double_free_asserts (s : HState) (a : Addr) (b : Block)
    (hb : lookupB s.heap a = some b) (hf : b.free = true) :
    freeFn (some a) s = .error () := by
  simp [freeFn, hb, hf]

/-- A single-block chain whose block is already free. -/
def c10ws : HState :=
  { heap := [(Addr.arena 0, ⟨8, none, true, true⟩)],
    freeList := some (Addr.arena 0), brk := 1, num_frees := 1 }

/-- Witness for C10 at a concrete already-free block. -/
theorem free_double_free_asserts_witness :
    freeFn (some (Addr.arena 0)) c10ws = .error () :=
  free_double_free_asserts c10ws (Addr.arena 0) ⟨8, none, true, true⟩ rfl rfl

def counters8LE (s s' : HState) : Prop :=
  s.num_mallocs ≤ s'.num_mallocs ∧ s.num_frees ≤ s'.num_frees ∧
  s.num_reuses ≤ s'.num_reuses ∧ s.num_grows ≤ s'.num_grows ∧
  s.num_splits ≤ s'.num_splits ∧ s.num_coalesces ≤ s'.num_coalesces ∧
  s.num_requested ≤ s'.num_requested ∧ s.max_heap ≤ s'.max_heap

lemma setFreeListIfNull_counters (a : Addr) (s : HState) :
    (setFreeListIfNull a s).num_mallocs = s.num_mallocs ∧
    (setFreeListIfNull a s).num_frees = s.num_frees ∧
    (setFreeListIfNull a s).num_reuses = s.num_reuses ∧
    (setFreeListIfNull a s).num_grows = s.num_grows ∧
    (setFreeListIfNull a s).num_splits = s.num_splits ∧
    (setFreeListIfNull a s).num_coalesces = s.num_coalesces ∧
    (setFreeListIfNull a s).num_requested = s.num_requested ∧
    (setFreeListIfNull a s).max_heap = s.max_heap := by
  unfold setFreeListIfNull
  split <;> simp

lemma attachLast_counters (last : Option Addr) (a : Addr) (s : HState) :
    (attachLast last a s).num_mallocs = s.num_mallocs ∧
    (attachLast last a s).num_frees = s.num_frees ∧
    (attachLast last a s).num_reuses = s.num_reuses ∧
    (attachLast last a s).num_grows = s.num_grows ∧
    (attachLast last a s).num_splits = s.num_splits ∧
    (attachLast last a s).num_coalesces = s.num_coalesces ∧
    (attachLast last a s).num_requested = s.num_requested ∧
    (attachLast last a s).max_heap = s.max_heap := by
  unfold attachLast
  cases last with
  | none => simp
  | some l => cases hl : lookupB s.heap l <;> simp [hl]

lemma growHeapFn_ok_counters {osOk : Bool} {last : Option Addr} {size : Nat}
    {s : HState} {r : Option Addr} {s' : HState}
    (h : growHeapFn osOk last size s = .ok (r, s')) :
    s'.num_mallocs = s.num_mallocs ∧ s'.num_frees = s.num_frees ∧
    s'.num_reuses = s.num_reuses ∧ s'.num_splits = s.num_splits ∧
    s'.num_coalesces = s.num_coalesces ∧ s'.num_requested = s.num_requested ∧
    s.num_grows ≤ s'.num_grows ∧ s.max_heap ≤ s'.max_heap := by
  cases osOk with
  | false => simp [growHeapFn] at h
  | true =>
    simp [growHeapFn] at h
    obtain ⟨h1, h2⟩ := h
    subst h2
    refine ⟨?_, ?_, ?_, ?_, ?_, ?_, ?_, ?_⟩ <;>
      simp [attachLast_counters, setFreeListIfNull_counters, Nat.le_max_left]

lemma splitPhase_counters (found : Option Addr) (size : Nat) (s : HState) :
    ((splitPhase found size s).2).num_mallocs = s.num_mallocs ∧
    ((splitPhase found size s).2).num_frees = s.num_frees ∧
    ((splitPhase found size s).2).num_reuses = s.num_reuses ∧
    ((splitPhase found size s).2).num_grows = s.num_grows ∧
    ((splitPhase found size s).2).num_coalesces = s.num_coalesces ∧
    ((splitPhase found size s).2).num_requested = s.num_requested ∧
    ((splitPhase found size s).2).max_heap = s.max_heap ∧
    s.num_splits ≤ ((splitPhase found size s).2).num_splits := by
  unfold splitPhase
  cases found with
  | none => simp
  | some a =>
    cases hl : lookupB s.heap a with
    | none => simp [hl]
    | some b =>
      by_cases hs : size < b.size <;> simp [hl, hs]

lemma finishAlloc_counters (a : Addr) (size : Nat) (s : HState) :
    s.num_mallocs ≤ ((finishAlloc a size s).2).num_mallocs ∧
    ((finishAlloc a size s).2).num_frees = s.num_frees ∧
    s.num_reuses ≤ ((finishAlloc a size s).2).num_reuses ∧
    ((finishAlloc a size s).2).num_grows = s.num_grows ∧
    ((finishAlloc a size s).2).num_splits = s.num_splits ∧
    ((finishAlloc a size s).2).num_coalesces = s.num_coalesces ∧
    s.num_requested ≤ ((finishAlloc a size s).2).num_requested ∧
    ((finishAlloc a size s).2).max_heap = s.max_heap := by
  unfold finishAlloc
  cases hl : lookupB s.heap a with
  | none => simp [hl]
  | some b =>
    by_cases hd : b.dirty = true <;> simp [hl, hd]

lemma counters8LE_refl (s : HState) : counters8LE s s := by
  simp [counters8LE]

lemma counters8LE_trans {s1 s2 s3 : HState}
    (h1 : counters8LE s1 s2) (h2 : counters8LE s2 s3) : counters8LE s1 s3 := by
  obtain ⟨a1, b1, c1, d1, e1, f1, g1, i1⟩ := h1
  obtain ⟨a2, b2, c2, d2, e2, f2, g2, i2⟩ := h2
  exact ⟨a1.trans a2, b1.trans b2, c1.trans c2, d1.trans d2, e1.trans e2,
    f1.trans f2, g1.trans g2, i1.trans i2⟩

lemma mallocCore_ok_counters {fit : Fit} {osOk : Bool} {size : Nat}
    {s1 : HState} {r : Option Addr} {s' : HState}
    (h : mallocCore fit osOk size s1 = .ok (r, s')) : counters8LE s1 s' := by
  simp only [mallocCore] at h
  rcases hfp : findFreeBlock fit s1 size with ⟨found, last, scanned, final'⟩
  rw [hfp] at h
  try dsimp only at h
  have h12 : counters8LE s1 { s1 with num_blocks := scanned, final := final' } := by
    simp [counters8LE]
  rcases hsp : splitPhase found size { s1 with num_blocks := scanned, final := final' }
    with ⟨next, s3⟩
  rw [hsp] at h
  try dsimp only at h
  have hsc := splitPhase_counters found size { s1 with num_blocks := scanned, final := final' }
  rw [hsp] at hsc
  have h23 : counters8LE { s1 with num_blocks := scanned, final := final' } s3 := by
    obtain ⟨e1, e2, e3, e4, e5, e6, e7, e8⟩ := hsc
    exact ⟨le_of_eq e1.symm, le_of_eq e2.symm, le_of_eq e3.symm, le_of_eq e4.symm,
      e8, le_of_eq e5.symm, le_of_eq e6.symm, le_of_eq e7.symm⟩
  have h13 := counters8LE_trans h12 h23
  cases next with
  | some a =>
    try dsimp only at h
    rcases hfa : finishAlloc a size s3 with ⟨ra, sa⟩
    rw [hfa] at h
    simp only [Except.ok.injEq, Prod.mk.injEq] at h
    obtain ⟨hr, hs⟩ := h
    subst hs
    have hfc := finishAlloc_counters a size s3
    rw [hfa] at hfc
    obtain ⟨f1, f2, f3, f4, f5, f6, f7, f8⟩ := hfc
    exact counters8LE_trans h13
      ⟨f1, le_of_eq f2.symm, f3, le_of_eq f4.symm, le_of_eq f5.symm,
        le_of_eq f6.symm, f7, le_of_eq f8.symm⟩
  | none =>
    try dsimp only at h
    cases hg : growHeapFn osOk last size s3 with
    | error e => rw [hg] at h; exact absurd h (by simp)
    | ok p =>
      rcases p with ⟨ro, s4⟩
      rw [hg] at h
      try dsimp only at h
      have hgc := growHeapFn_ok_counters hg
      obtain ⟨g1, g2, g3, g4, g5, g6, g7, g8⟩ := hgc
      have h34 : counters8LE s3 s4 :=
        ⟨le_of_eq g1.symm, le_of_eq g2.symm, le_of_eq g3.symm, g7,
          le_of_eq g4.symm, le_of_eq g5.symm, le_of_eq g6.symm, g8⟩
      have h14 := counters8LE_trans h13 h34
      cases ro with
      | none =>
        try dsimp only at h
        simp only [Except.ok.injEq, Prod.mk.injEq] at h
        obtain ⟨hr, hs⟩ := h
        subst hs
        exact h14
      | some a =>
        try dsimp only at h
        rcases hfa : finishAlloc a size s4 with ⟨ra, sa⟩
        rw [hfa] at h
        simp only [Except.ok.injEq, Prod.mk.injEq] at h
        obtain ⟨hr, hs⟩ := h
        subst hs
        have hfc := finishAlloc_counters a size s4
        rw [hfa] at hfc
        obtain ⟨f1, f2, f3, f4, f5, f6, f7, f8⟩ := hfc
        exact counters8LE_trans h14
          ⟨f1, le_of_eq f2.symm, f3, le_of_eq f4.symm, le_of_eq f5.symm,
            le_of_eq f6.symm, f7, le_of_eq f8.symm⟩

lemma backwardPass_nc_le (c : Addr) :
    ∀ fuel t h nc, nc ≤ (backwardPass c h nc fuel t).2 := by
  intro fuel
  induction fuel with
  | zero => intro t h nc; exact le_refl _
  | succ f ih =>
    intro t h nc
    cases t with
    | none => exact le_refl _
    | some a =>
      simp only [backwardPass]
      cases hl : lookupB h a with
      | none => simp
      | some tb =>
        simp only
        split
        · cases hc : lookupB h c with
          | none => simp
          | some cb =>
            simp only
            exact le_trans (Nat.le_succ nc) (ih _ _ _)
        · exact ih _ _ _

lemma forwardCoalesce_counters (a : Addr) (curr : Block) (s : HState) :
    (forwardCoalesce a curr s).num_mallocs = s.num_mallocs ∧
    (forwardCoalesce a curr s).num_frees = s.num_frees ∧
    (forwardCoalesce a curr s).num_reuses = s.num_reuses ∧
    (forwardCoalesce a curr s).num_grows = s.num_grows ∧
    (forwardCoalesce a curr s).num_splits = s.num_splits ∧
    (forwardCoalesce a curr s).num_requested = s.num_requested ∧
    (forwardCoalesce a curr s).max_heap = s.max_heap ∧
    s.num_coalesces ≤ (forwardCoalesce a curr s).num_coalesces := by
  unfold forwardCoalesce
  cases curr.next with
  | none => simp
  | some r =>
    cases hl : lookupB s.heap r with
    | none => simp [hl]
    | some rb => by_cases hf : rb.free = true <;> simp [hl, hf]

lemma freeFn_ok_counters {p : Option Addr} {s s' : HState}
    (h : freeFn p s = .ok s') : counters8LE s s' := by
  cases p with
  | none =>
    simp only [freeFn, Except.ok.injEq] at h
    subst h
    exact counters8LE_refl s
  | some a =>
    simp only [freeFn] at h
    cases hl : lookupB s.heap a with
    | none => rw [hl] at h; exact absurd h (by simp)
    | some curr0 =>
      rw [hl] at h
      try dsimp only at h
      by_cases hf : curr0.free = true
      · rw [if_pos hf] at h; exact absurd h (by simp)
      · rw [if_neg hf] at h
        have hfc := forwardCoalesce_counters a { curr0 with free := true }
          { s with heap := updateB s.heap a { curr0 with free := true },
                   num_frees := s.num_frees + 1 }
        generalize hgen : forwardCoalesce a { curr0 with free := true }
          { s with heap := updateB s.heap a { curr0 with free := true },
                   num_frees := s.num_frees + 1 } = sF at h hfc
        obtain ⟨f1, f2, f3, f4, f5, f6, f7, f8⟩ := hfc
        have hb := backwardPass_nc_le a (sF.heap.length + 1) sF.freeList sF.heap
          sF.num_coalesces
        rcases hbp : backwardPass a sF.heap sF.num_coalesces (sF.heap.length + 1)
            sF.freeList with ⟨bh, bnc⟩
        rw [hbp] at h hb
        try dsimp only at h
        simp only [Except.ok.injEq] at h
        subst h
        refine ⟨?_, ?_, ?_, ?_, ?_, ?_, ?_, ?_⟩
        · exact le_of_eq f1.symm
        · show s.num_frees ≤ sF.num_frees
          rw [f2]
          exact Nat.le_succ _
        · exact le_of_eq f3.symm
        · exact le_of_eq f4.symm
        · exact le_of_eq f5.symm
        · exact le_trans f8 hb
        · exact le_of_eq f6.symm
        · exact le_of_eq f7.symm

lemma mallocFn_ok_counters {fit : Fit} {osOk : Bool} {n : Nat}
    {s : HState} {r : Option Addr} {s' : HState}
    (h : mallocFn fit osOk n s = .ok (r, s')) : counters8LE s s' := by
  simp only [mallocFn] at h
  have hreg : counters8LE s
      (if s.atexitRegistered = true then s else { s with atexitRegistered := true }) := by
    split <;> simp [counters8LE]
  by_cases hz : align4 n = 0
  · rw [if_pos hz] at h
    simp only [Except.ok.injEq, Prod.mk.injEq] at h
    obtain ⟨hr, hs⟩ := h
    subst hs
    exact hreg
  · rw [if_neg hz] at h
    exact counters8LE_trans hreg (mallocCore_ok_counters h)

/-- C9 (amended): over every single allocate or deallocate call that
completes, each of the eight counters other than blocks-scanned —
allocation count, free count, reuse count, growth count, split count,
coalesce count, cumulative requested bytes, maximum single growth size —
is non-decreasing (hence non-decreasing over every sequence of calls). -/
theorem counters_monotone_amended :
    (∀ (fit : Fit) (osOk : Bool) (n : Nat) (s : HState) (r : Option Addr) (s' : HState),
       mallocFn fit osOk n s = .ok (r, s') → counters8LE s s') ∧
    (∀ (p : Option Addr) (s s' : HState),
       freeFn p s = .ok s' → counters8LE s s') :=
  ⟨fun _ _ _ _ _ _ h => mallocFn_ok_counters h,
   fun _ _ _ h => freeFn_ok_counters h⟩

/-- Witness for the amended C9 at a concrete allocate call and a
concrete deallocate call from the scripted first-fit sequence. -/
theorem counters_monotone_amended_witness :
    counters8LE st0 st1 ∧ counters8LE st2 st3 :=
  ⟨counters_monotone_amended.1 .first true 4 st0 (some (Addr.arena 0)) st1 rfl,
   counters_monotone_amended.2 (some (Addr.arena 0)) st2 st3 rfl⟩

lemma finishAlloc_ok_requested {b : Addr} {size : Nat} {s : HState} {x : Addr}
    {s' : HState} (h : finishAlloc b size s = (some x, s')) :
    s'.num_requested = s.num_requested + size := by
  simp only [finishAlloc] at h
  cases hl : lookupB s.heap b with
  | none => rw [hl] at h; simp at h
  | some blk =>
    rw [hl] at h
    try dsimp only at h
    simp only [Prod.mk.injEq] at h
    obtain ⟨hx, hs⟩ := h
    subst hs
    by_cases hd : blk.dirty = true <;> simp [hd]

lemma mallocCore_ok_requested {fit : Fit} {osOk : Bool} {size : Nat}
    {s1 : HState} {a : Addr} {s' : HState}
    (h : mallocCore fit osOk size s1 = .ok (some a, s')) :
    s'.num_requested = s1.num_requested + size := by
  simp only [mallocCore] at h
  rcases hfp : findFreeBlock fit s1 size with ⟨found, last, scanned, final'⟩
  rw [hfp] at h
  try dsimp only at h
  rcases hsp : splitPhase found size { s1 with num_blocks := scanned, final := final' }
    with ⟨next, s3⟩
  rw [hsp] at h
  try dsimp only at h
  have hsc := splitPhase_counters found size { s1 with num_blocks := scanned, final := final' }
  rw [hsp] at hsc
  have hs3 : s3.num_requested = s1.num_requested := hsc.2.2.2.2.2.1
  cases next with
  | some b =>
    try dsimp only at h
    rcases hfa : finishAlloc b size s3 with ⟨ra, sa⟩
    rw [hfa] at h
    simp only [Except.ok.injEq, Prod.mk.injEq] at h
    obtain ⟨hr, hs⟩ := h
    subst hs
    rw [hr] at hfa
    rw [finishAlloc_ok_requested hfa, hs3]
  | none =>
    try dsimp only at h
    cases hg : growHeapFn osOk last size s3 with
    | error e => rw [hg] at h; exact absurd h (by simp)
    | ok p =>
      rcases p with ⟨ro, s4⟩
      rw [hg] at h
      have hg6 := (growHeapFn_ok_counters hg).2.2.2.2.2.1
      cases ro with
      | none =>
        try dsimp only at h
        simp only [Except.ok.injEq, Prod.mk.injEq] at h
        exact absurd h.1 (by simp)
      | some b =>
        try dsimp only at h
        rcases hfa : finishAlloc b size s4 with ⟨ra, sa⟩
        rw [hfa] at h
        simp only [Except.ok.injEq, Prod.mk.injEq] at h
        obtain ⟨hr, hs⟩ := h
        subst hs
        rw [hr] at hfa
        rw [finishAlloc_ok_requested hfa, hg6, hs3]

/-- C8: `malloc` aligns every request of at least 1 byte (that stays in
`size_t` range) up to the smallest multiple of 4 that is at least the
request, before any search or growth; and on every successful
allocation the cumulative requested-bytes counter grows by exactly the
post-alignment size. -/
theorem align4_and_requested_counter :
    (∀ n : Nat, 1 ≤ n → n + 3 < U64 →
       align4 n % 4 = 0 ∧ n ≤ align4 n ∧ align4 n < n + 4) ∧
    (∀ (fit : Fit) (osOk : Bool) (n : Nat) (s : HState) (a : Addr) (s' : HState),
       mallocFn fit osOk n s = .ok (some a, s') →
       s'.num_requested = s.num_requested + align4 n) := by
  constructor
  · intro n h1 h2
    have hU : U64 = 18446744073709551616 := rfl
    rw [hU] at h2
    have e1 : (n + (U64 - 1)) % U64 = n - 1 := by
      rw [hU]
      omega
    have e2 : align4 n = (n - 1) / 4 * 4 + 4 := by
      rw [align4, e1, hU]
      omega
    refine ⟨?_, ?_, ?_⟩ <;> rw [e2] <;> omega
  · intro fit osOk n s a s' h
    simp only [mallocFn] at h
    by_cases hz : align4 n = 0
    · rw [if_pos hz] at h
      simp only [Except.ok.injEq, Prod.mk.injEq] at h
      exact absurd h.1 (by simp)
    · rw [if_neg hz] at h
      have hcore := mallocCore_ok_requested h
      by_cases hreg : s.atexitRegistered = true <;> simp [hreg] at hcore <;>
        exact hcore

/-- Witness for C8: the alignment facts at request 5 (aligned to 8) and
the counter increment on the first concrete allocation of the scripted
sequence. -/
theorem align4_and_requested_counter_witness :
    (align4 5 % 4 = 0 ∧ 5 ≤ align4 5 ∧ align4 5 < 5 + 4) ∧
    st1.num_requested = st0.num_requested + align4 4 :=
  ⟨align4_and_requested_counter.1 5 (by decide) (by decide),
   align4_and_requested_counter.2 .first true 4 st0 (Addr.arena 0) st1 rfl⟩

lemma firstScan_reach (h : Heap) (size : Nat) :
    ∀ fuel start last sc a,
      (firstScan h size fuel start last sc).1 = some a →
      ∃ k, stepN h k start = some a := by
  intro fuel
  induction fuel with
  | zero => intro start last sc a ha; exact absurd ha (by simp [firstScan])
  | succ f ih =>
    intro start last sc a ha
    cases start with
    | none => exact absurd ha (by simp [firstScan])
    | some x =>
      simp only [firstScan] at ha
      cases hl : lookupB h x with
      | none => rw [hl] at ha; exact absurd ha (by simp)
      | some b =>
        rw [hl] at ha
        try dsimp only at ha
        by_cases hcond : b.free = true ∧ size ≤ b.size
        · rw [if_pos hcond] at ha
          simp only at ha
          refine ⟨0, ?_⟩
          simp only [stepN]
          exact ha
        · rw [if_neg hcond] at ha
          obtain ⟨k, hk⟩ := ih b.next (some x) (sc + 1) a ha
          refine ⟨k + 1, ?_⟩
          simp only [stepN, hl]
          exact hk

/-- C5 (amended): under NextFit the cursor is left exactly where the
search stopped (the found block, or null after a miss); when the cursor
rests at a block, a search only ever returns a block reachable from the
cursor by following `next` links forward (so blocks before the cursor
are skipped); and when the cursor is null — on first use or after any
missed search — the search restarts from the chain head, which is how a
block before a previously advanced cursor can become reachable again. -/
theorem nextFit_cursor_amended :
    (∀ (s : HState) (size : Nat),
       (findFreeBlock .next s size).2.2.2 = (findFreeBlock .next s size).1) ∧
    (∀ (s : HState) (size : Nat) (c a : Addr), s.final = some c →
       (findFreeBlock .next s size).1 = some a →
       ∃ k, stepN s.heap k (some c) = some a) ∧
    (∀ (s : HState) (size : Nat) (a : Addr), s.final = none →
       (findFreeBlock .next s size).1 = some a →
       ∃ k, stepN s.heap k s.freeList = some a) := by
  refine ⟨?_, ?_, ?_⟩
  · intro s size
    cases hfin : s.final with
    | none => simp only [findFreeBlock, hfin]
    | some c => simp only [findFreeBlock, hfin]
  · intro s size c a hfin hfound
    simp only [findFreeBlock, hfin] at hfound
    apply firstScan_reach s.heap size (s.heap.length + 1) (some c) s.freeList 0 a
    rcases he : firstScan s.heap size (s.heap.length + 1) (some c) s.freeList 0
      with ⟨f, l, n⟩
    rw [he] at hfound
    exact hfound
  · intro s size a hfin hfound
    simp only [findFreeBlock, hfin] at hfound
    apply firstScan_reach s.heap size (s.heap.length + 1) s.freeList s.freeList 0 a
    rcases he : firstScan s.heap size (s.heap.length + 1) s.freeList s.freeList 0
      with ⟨f, l, n⟩
    rw [he] at hfound
    exact hfound

/-- A single free block with the next-fit cursor resting on it. -/
def c5w : HState :=
  { heap := [(Addr.arena 0, ⟨8, none, true, true⟩)],
    freeList := some (Addr.arena 0), final := some (Addr.arena 0), brk := 1 }

/-- Witness for the amended C5: a search with the cursor on a block
returns a block reachable from the cursor, and a search with a null
cursor returns a block reachable from the chain head. -/
theorem nextFit_cursor_amended_witness :
    (∃ k, stepN c5w.heap k (some (Addr.arena 0)) = some (Addr.arena 0)) ∧
    (∃ k, stepN c5s2.heap k c5s2.freeList = some (Addr.arena 0)) :=
  ⟨nextFit_cursor_amended.2.1 c5w 4 (Addr.arena 0) (Addr.arena 0) rfl rfl,
   nextFit_cursor_amended.2.2 c5s2 4 (Addr.arena 0) rfl rfl⟩

lemma specBestFit_mem (size : Nat) :
    ∀ (l : List (Addr × Block)) (p : Addr × Block),
      specBestFit size l = some p → p.2.free = true ∧ size ≤ p.2.size := by
  intro l
  induction l with
  | nil => intro p hp; exact absurd hp (by simp [specBestFit])
  | cons hd t ih =>
    intro p hp
    rcases hd with ⟨a, b⟩
    simp only [specBestFit] at hp
    by_cases hc : b.free = true ∧ size ≤ b.size
    · rw [if_pos hc] at hp
      cases hr : specBestFit size t with
      | none =>
        rw [hr] at hp
        try dsimp only at hp
        simp only [Option.some.injEq] at hp
        subst hp
        exact hc
      | some q =>
        rw [hr] at hp
        try dsimp only at hp
        by_cases hq : q.2.size < b.size
        · rw [if_pos hq] at hp
          simp only [Option.some.injEq] at hp
          subst hp
          exact ih q hr
        · rw [if_neg hq] at hp
          simp only [Option.some.injEq] at hp
          subst hp
          exact hc
    · rw [if_neg hc] at hp
      exact ih p hp

/-- The best-fit loop replayed over an extracted chain list (same
branching as `bestScan`, including the exact-match break). -/
def bestScanL (size : Nat) : List (Addr × Block) → Option (Addr × Block) →
    Option (Addr × Block)
  | [], best => best
  | (a, b) :: t, best =>
    if b.free ∧ size ≤ b.size ∧ bestBetter best b then
      if b.size = size then some (a, b)
      else bestScanL size t (some (a, b))
    else bestScanL size t best

/-- Combine the running best candidate with the best of the remaining
chain: the remainder wins only when strictly smaller. -/
def bestMergeP (best r : Option (Addr × Block)) : Option (Addr × Block) :=
  match r with
  | some p =>
    match best with
    | some q => if p.2.size < q.2.size then some p else some q
    | none => some p
  | none => best

lemma bestScan_eq_bestScanL (h : Heap) (size : Nat) :
    ∀ fuel start l best sc,
      chainTo h fuel start = some l →
      (bestScan h size fuel start best sc).1 = (bestScanL size l best).map Prod.fst := by
  intro fuel
  induction fuel with
  | zero =>
    intro start l best sc hc
    cases start with
    | none =>
      simp only [chainTo, Option.some.injEq] at hc
      subst hc
      simp [bestScan, bestScanL]
    | some a => exact absurd hc (by simp [chainTo])
  | succ f ih =>
    intro start l best sc hc
    cases start with
    | none =>
      simp only [chainTo, Option.some.injEq] at hc
      subst hc
      simp [bestScan, bestScanL]
    | some a =>
      simp only [chainTo] at hc
      cases hl : lookupB h a with
      | none => rw [hl] at hc; exact absurd hc (by simp)
      | some b =>
        rw [hl] at hc
        try dsimp only at hc
        cases hct : chainTo h f b.next with
        | none => rw [hct] at hc; exact absurd hc (by simp)
        | some t =>
          rw [hct] at hc
          try dsimp only at hc
          simp only [Option.some.injEq] at hc
          subst hc
          simp only [bestScan, hl, bestScanL]
          try dsimp only
          by_cases hcb : b.free = true ∧ size ≤ b.size ∧ bestBetter best b = true
          · rw [if_pos hcb, if_pos hcb]
            by_cases hex : b.size = size
            · rw [if_pos hex, if_pos hex]
              rfl
            · rw [if_neg hex, if_neg hex]
              exact ih b.next t (some (a, b)) (sc + 1) hct
          · rw [if_neg hcb, if_neg hcb]
            exact ih b.next t best (sc + 1) hct

lemma bestBetter_some {q : Addr × Block} {b : Block}
    (h : bestBetter (some q) b = true) : b.size < q.2.size := by
  simpa [bestBetter] using h

lemma bestScanL_eq_specBestFit (size : Nat) :
    ∀ (l : List (Addr × Block)) (best : Option (Addr × Block)),
      (∀ q, best = some q → size < q.2.size) →
      bestScanL size l best = bestMergeP best (specBestFit size l) := by
  intro l
  induction l with
  | nil => intro best hacc; simp [bestScanL, specBestFit, bestMergeP]
  | cons hd t ih =>
    rcases hd with ⟨a, b⟩
    intro best hacc
    simp only [bestScanL, specBestFit]
    by_cases hcb : b.free = true ∧ size ≤ b.size
    · by_cases hbb : bestBetter best b = true
      · rw [if_pos ⟨hcb.1, hcb.2, hbb⟩, if_pos hcb]
        by_cases hex : b.size = size
        · rw [if_pos hex]
          have hin : (match specBestFit size t with
              | some p => if p.2.size < b.size then some p else some (a, b)
              | none => some (a, b)) = some (a, b) := by
            cases hr : specBestFit size t with
            | none => rfl
            | some p =>
              have hmem := specBestFit_mem size t p hr
              try dsimp only
              rw [if_neg (by omega)]
          rw [hin]
          cases hbest : best with
          | none => rfl
          | some q =>
            have hq := hacc q hbest
            simp only [bestMergeP]
            rw [if_pos (show (a, b).2.size < q.2.size by dsimp only; omega)]
        · rw [if_neg hex]
          have hacc' : ∀ q, some (a, b) = some q → size < q.2.size := by
            intro q hq
            obtain rfl : (a, b) = q := by injection hq
            try dsimp only
            rcases hcb with ⟨-, h2⟩
            omega
          rw [ih (some (a, b)) hacc']
          cases hr : specBestFit size t with
          | none =>
            simp only [bestMergeP]
            cases hbest : best with
            | none => rfl
            | some q =>
              have hq' : b.size < q.2.size := bestBetter_some (hbest ▸ hbb)
              try dsimp only
              rw [if_pos (show (a, b).2.size < q.2.size from hq')]
          | some p =>
            by_cases hpb : p.2.size < b.size
            · simp only [bestMergeP]
              try dsimp only
              rw [if_pos (show p.2.size < b.size from hpb)]
              try dsimp only
              cases hbest : best with
              | none => rfl
              | some q =>
                have hq' : b.size < q.2.size := bestBetter_some (hbest ▸ hbb)
                try dsimp only
                rw [if_pos (show p.2.size < q.2.size by omega)]
            · simp only [bestMergeP]
              try dsimp only
              rw [if_neg (show ¬p.2.size < b.size from hpb)]
              try dsimp only
              cases hbest : best with
              | none => rfl
              | some q =>
                have hq' : b.size < q.2.size := bestBetter_some (hbest ▸ hbb)
                try dsimp only
                rw [if_pos (show b.size < q.2.size from hq')]
      · rw [if_neg (fun hh => hbb hh.2.2), if_pos hcb]
        rw [ih best hacc]
        cases hbest : best with
        | none =>
          subst hbest
          exact absurd rfl hbb
        | some q =>
          subst hbest
          have hqb : ¬b.size < q.2.size := by
            intro hlt
            refine hbb ?_
            simp only [bestBetter, decide_eq_true_eq]
            exact hlt
          have hq2 := hacc q rfl
          cases hr : specBestFit size t with
          | none =>
            simp only [bestMergeP]
            try dsimp only
            rw [if_neg (show ¬b.size < q.2.size from hqb)]
          | some p =>
            have hmem := specBestFit_mem size t p hr
            by_cases hpb : p.2.size < b.size
            · simp only [bestMergeP]
              try dsimp only
              rw [if_pos (show p.2.size < b.size from hpb)]
              try dsimp only
            · simp only [bestMergeP]
              try dsimp only
              rw [if_neg (show ¬p.2.size < b.size from hpb)]
              try dsimp only
              rw [if_neg (show ¬b.size < q.2.size from hqb),
                  if_neg (show ¬p.2.size < q.2.size by omega)]
    · rw [if_neg (fun hh => hcb ⟨hh.1, hh.2.1⟩), if_neg hcb]
      exact ih best hacc

lemma bestScan_scanned (h : Heap) (size : Nat) :
    ∀ fuel start l best sc,
      chainTo h fuel start = some l →
      (∀ p ∈ l, ¬(p.2.free = true ∧ p.2.size = size)) →
      (bestScan h size fuel start best sc).2 = sc + l.length := by
  intro fuel
  induction fuel with
  | zero =>
    intro start l best sc hc hne
    cases start with
    | none =>
      simp only [chainTo, Option.some.injEq] at hc
      subst hc
      simp [bestScan]
    | some a => exact absurd hc (by simp [chainTo])
  | succ f ih =>
    intro start l best sc hc hne
    cases start with
    | none =>
      simp only [chainTo, Option.some.injEq] at hc
      subst hc
      simp [bestScan]
    | some a =>
      simp only [chainTo] at hc
      cases hl : lookupB h a with
      | none => rw [hl] at hc; exact absurd hc (by simp)
      | some b =>
        rw [hl] at hc
        try dsimp only at hc
        cases hct : chainTo h f b.next with
        | none => rw [hct] at hc; exact absurd hc (by simp)
        | some t =>
          rw [hct] at hc
          try dsimp only at hc
          simp only [Option.some.injEq] at hc
          subst hc
          have hnb : ¬(b.free = true ∧ b.size = size) := hne (a, b) (by simp)
          have hnt : ∀ p ∈ t, ¬(p.2.free = true ∧ p.2.size = size) := by
            intro p hp
            exact hne p (by simp [hp])
          simp only [bestScan, hl]
          try dsimp only
          by_cases hcb : b.free = true ∧ size ≤ b.size ∧ bestBetter best b = true
          · rw [if_pos hcb]
            have hex : ¬b.size = size := fun he => hnb ⟨hcb.1, he⟩
            rw [if_neg hex]
            rw [ih b.next t (some (a, b)) (sc + 1) hct hnt]
            simp only [List.length_cons]
            omega
          · rw [if_neg hcb]
            rw [ih b.next t best (sc + 1) hct hnt]
            simp only [List.length_cons]
            omega

/-- A chain of three free blocks of sizes 10, 50 and 5 in address
order, the spec's BestFit conformance scenario for a request of 6. -/
def c7s : HState :=
  { heap := [(Addr.arena 0, ⟨10, some (Addr.arena 1), true, true⟩),
             (Addr.arena 1, ⟨50, some (Addr.arena 2), true, true⟩),
             (Addr.arena 2, ⟨5, none, true, true⟩)],
    freeList := some (Addr.arena 0), brk := 3 }

/-- The chain of `c7s` as an extracted list. -/
def c7chain : List (Addr × Block) :=
  [(Addr.arena 0, ⟨10, some (Addr.arena 1), true, true⟩),
   (Addr.arena 1, ⟨50, some (Addr.arena 2), true, true⟩),
   (Addr.arena 2, ⟨5, none, true, true⟩)]

/-- A chain of two free blocks of sizes 8 and 12: a request of exactly
8 hits the early exit after scanning only the first block. -/
def c7sExact : HState :=
  { heap := [(Addr.arena 0, ⟨8, some (Addr.arena 1), true, true⟩),
             (Addr.arena 1, ⟨12, none, true, true⟩)],
    freeList := some (Addr.arena 0), brk := 2 }

/-- C7: the best-fit scan selects exactly what the spec's rule
(`specBestFit`: smallest free block with `size ≥ S`, ties keeping the
earliest found) selects, on every chain; when no free block of exactly
the requested size exists, the scan visits the entire chain; on the
spec's conformance scenario (free sizes 10, 50, 5 and request 6) the
size-10 block at arena address 0 is selected after scanning all three
blocks; and on a chain of free sizes 8, 12 an exact request of 8 exits
early, scanning one block instead of two. -/
theorem bestFit_selects_smallest :
    (∀ (h : Heap) (fuel : Nat) (start : Option Addr) (l : List (Addr × Block)) (size : Nat),
       chainTo h fuel start = some l →
       (bestScan h size fuel start none 0).1 = (specBestFit size l).map Prod.fst) ∧
    (∀ (h : Heap) (fuel : Nat) (start : Option Addr) (l : List (Addr × Block)) (size : Nat),
       chainTo h fuel start = some l →
       (∀ p ∈ l, ¬(p.2.free = true ∧ p.2.size = size)) →
       (bestScan h size fuel start none 0).2 = l.length) ∧
    (findFreeBlock .best c7s 6).1 = some (Addr.arena 0) ∧
    (findFreeBlock .best c7s 6).2.2.1 = 3 ∧
    (findFreeBlock .best c7sExact 8).1 = some (Addr.arena 0) ∧
    (findFreeBlock .best c7sExact 8).2.2.1 = 1 := by
  refine ⟨?_, ?_, ?_, ?_, ?_, ?_⟩
  · intro h fuel start l size hc
    rw [bestScan_eq_bestScanL h size fuel start l none 0 hc,
        bestScanL_eq_specBestFit size l none (fun q hq => by cases hq)]
    cases hr : specBestFit size l with
    | none => rfl
    | some p => rfl
  · intro h fuel start l size hc hne
    rw [bestScan_scanned h size fuel start l none 0 hc hne]
    omega
  · decide
  · decide
  · decide
  · decide

/-- Witness for C7 at the conformance chain: the scan result equals the
spec rule's choice and the whole three-block chain is scanned. -/
theorem bestFit_selects_smallest_witness :
    (bestScan c7s.heap 6 4 c7s.freeList none 0).1 = (specBestFit 6 c7chain).map Prod.fst ∧
    (bestScan c7s.heap 6 4 c7s.freeList none 0).2 = c7chain.length :=
  ⟨bestFit_selects_smallest.1 c7s.heap 4 c7s.freeList c7chain 6 (by decide),
   bestFit_selects_smallest.2.1 c7s.heap 4 c7s.freeList c7chain 6 (by decide) (by decide)⟩
